import Mathlib

/-!
Verification of the Habit & Streak Tracking Engine of the `ee4002d`
fitness-companion repository.

The repository ships the React-Native frontend (HabitsScreen, HomeScreen,
the `habitsAPI` client in `services/api.js`) and documentation describing
the Flask backend (`routes/habits.py`, `models.py`); the backend source
itself is not part of the available tree, so the engine (CompletionRecorder,
StreakCalculator, MilestoneDetector, ScheduleValidator,
ReminderWindowComputer, and the persistence compare-and-swap write) is
modelled from the specification, while the frontend `createHabit` payload
is embedded directly from `HabitsScreen.js`.

Conventions of the model: instants are minutes since an epoch midnight,
calendar dates are day indices (instant / 1440), epoch day 0 falls on the
first weekday (so `weekday d = d % 7`), and `weekOf d = d / 7` is the
absolute week index, which encodes the spec's "ISO week number+year" in a
single number where consecutive weeks differ by exactly one, including
across year boundaries.
-/

namespace HabitEngine

/-- Minutes in one calendar day. -/
def minutesPerDay : Nat := 1440

/-- Modelled from the spec: calendar date (day index) of an instant in the
owner's local timezone, the timezone being given as a minute offset
(`routes/habits.py` backend is not in the tree). -/
def localDate (now tzOffset : Nat) : Nat := (now + tzOffset) / minutesPerDay

/-- Weekday (0..6) of a day index; epoch day 0 has weekday 0. -/
def weekday (d : Nat) : Nat := d % 7

/-- Modelled from the spec: `weekOf d`, the ISO week (number+year) of a
date, encoded as an absolute week index so that consecutive ISO weeks
differ by one. -/
def weekOf (d : Nat) : Nat := d / 7

/-- Modelled from the spec: the closed frequency variant
`Daily | Weekly | Custom(weekdays)` (backend model is not in the tree). -/
inductive Frequency
  | daily
  | weekly
  | custom (weekdays : List Nat)
deriving DecidableEq, Repr

/-- Modelled from the spec: the Habit entity of the engine's data model
(backend `models.py` is not in the tree). -/
structure Habit where
  id : Nat
  ownerId : Nat
  frequency : Frequency
  currentStreak : Nat
  longestStreak : Nat
  totalCompletions : Nat
  lastCompletedDate : Option Nat
  isActive : Bool
  reminderTime : Nat
deriving DecidableEq, Repr

/-- Modelled from the spec: a habit as created by the lifecycle rules
(all counters zero, no completion yet). -/
def freshHabit (id ownerId : Nat) (f : Frequency) (reminderTime : Nat) : Habit :=
  { id := id, ownerId := ownerId, frequency := f,
    currentStreak := 0, longestStreak := 0, totalCompletions := 0,
    lastCompletedDate := none, isActive := true, reminderTime := reminderTime }

/-- Modelled from the spec: `previousScheduledDate(today)` for a Custom
weekday set, scanning downward from `today - 1` for the most recent date
whose weekday is in the set. -/
def prevScheduledAux (ws : List Nat) : Nat → Option Nat
  | 0 => none
  | d + 1 => if weekday d ∈ ws then some d else prevScheduledAux ws d

/-- Modelled from the spec: the most recent date strictly before `today`
whose weekday is in `ws`. -/
def previousScheduledDate (today : Nat) (ws : List Nat) : Option Nat :=
  prevScheduledAux ws today

/-- Modelled from the spec: `StreakCalculator.Advance(habit, today)`
(backend streak logic is not in the tree; policy from spec section 4.3). -/
def advance (habit : Habit) (today : Nat) : Nat :=
  match habit.frequency with
  | .daily =>
      match habit.lastCompletedDate with
      | none => 1
      | some last => if today - last = 1 then habit.currentStreak + 1 else 1
  | .weekly =>
      match habit.lastCompletedDate with
      | none => 1
      | some last => if weekOf today - weekOf last = 1 then habit.currentStreak + 1 else 1
  | .custom ws =>
      match habit.lastCompletedDate with
      | none => 1
      | some last =>
          if previousScheduledDate today ws = some last then habit.currentStreak + 1 else 1

/-- Modelled from the spec: `MilestoneDetector.CrossesMilestone`
(backend milestone logic is not in the tree). -/
def crossesMilestone (oldStreak newStreak : Nat) (thresholds : List Nat) : Bool :=
  thresholds.any (fun m => decide (oldStreak < m ∧ m ≤ newStreak))

/-- Modelled from the spec: outcome status of `RecordCompletion`. -/
inductive CompletionStatus
  | completed (milestone : Bool)
  | alreadyCompletedToday
deriving DecidableEq, Repr

/-- Modelled from the spec: errors surfaced by `RecordCompletion`. -/
inductive CompletionError
  | scheduleMismatch
deriving DecidableEq, Repr

/-- Modelled from the spec: the state transform of a successful completion:
advance the streak, take the max for the longest streak, increment the
completion total, stamp today, and flag a milestone crossing. -/
def applyCompletion (thresholds : List Nat) (habit : Habit) (today : Nat) :
    Habit × CompletionStatus :=
  let newCur := advance habit today
  ({ habit with
      currentStreak := newCur,
      longestStreak := max habit.longestStreak newCur,
      totalCompletions := habit.totalCompletions + 1,
      lastCompletedDate := some today },
   .completed (crossesMilestone habit.currentStreak newCur thresholds))

/-- Modelled from the spec: `CompletionRecorder.RecordCompletion(habit, now)`
(backend `complete_habit` route is not in the tree): same-day idempotence
check first, then the Custom schedule-mismatch guard, then the streak
update. -/
def recordCompletion (thresholds : List Nat) (tzOffset : Nat) (habit : Habit) (now : Nat) :
    Except CompletionError (Habit × CompletionStatus) :=
  let today := localDate now tzOffset
  if habit.lastCompletedDate = some today then
    .ok (habit, .alreadyCompletedToday)
  else
    match habit.frequency with
    | .custom ws =>
        if weekday today ∈ ws then .ok (applyCompletion thresholds habit today)
        else .error .scheduleMismatch
    | _ => .ok (applyCompletion thresholds habit today)

/-- Persisted state: the habit row together with its optimistic version. -/
structure Store where
  habit : Habit
  version : Nat
deriving DecidableEq, Repr

/-- Modelled from the spec: `Save(habit, expectedVersion)` of the
persistence collaborator — an atomic compare-and-swap that succeeds only
when the version is unchanged. -/
def save (s : Store) (expected : Nat) (h : Habit) : Store × Bool :=
  if s.version = expected then ({ habit := h, version := s.version + 1 }, true)
  else (s, false)

/-- Modelled from the spec: `RecordCompletion` acting on the persisted
store; the `AlreadyCompletedToday` no-op path and the error path perform
no write (store, version included, is returned unchanged). -/
def recordCompletionStore (thresholds : List Nat) (tzOffset : Nat) (s : Store) (now : Nat) :
    Store × Except CompletionError CompletionStatus :=
  match recordCompletion thresholds tzOffset s.habit now with
  | .error e => (s, .error e)
  | .ok (h', st) =>
      match st with
      | .alreadyCompletedToday => (s, .ok st)
      | .completed _ => ({ habit := h', version := s.version + 1 }, .ok st)

/-- Modelled from the spec: one caller of the optimistic-concurrency
protocol. The caller previously read `r`, the store currently holds `s`:
it evaluates `RecordCompletion` on its read, attempts a compare-and-swap
write; on a conflict it re-reads the current state and re-evaluates the
same-day idempotence check rather than blindly retrying the streak
computation. -/
def casRecordCompletion (thresholds : List Nat) (tzOffset : Nat) (now : Nat) (r s : Store) :
    Store × Except CompletionError CompletionStatus :=
  match recordCompletion thresholds tzOffset r.habit now with
  | .error e => (s, .error e)
  | .ok (_, .alreadyCompletedToday) => (s, .ok .alreadyCompletedToday)
  | .ok (h', .completed b) =>
      let (s', wrote) := save s r.version h'
      if wrote then (s', .ok (.completed b))
      else
        match recordCompletion thresholds tzOffset s.habit now with
        | .error e => (s, .error e)
        | .ok (_, .alreadyCompletedToday) => (s, .ok .alreadyCompletedToday)
        | .ok (h'', .completed b') => ((save s s.version h'').1, .ok (.completed b'))

/-- Modelled from the spec: the raw frequency tag of a `(frequency,
weekdaysOrNil)` pair before validation. -/
inductive FrequencyKind
  | daily
  | weekly
  | custom
deriving DecidableEq, Repr

/-- Modelled from the spec: `InvalidScheduleError`, naming the violated
constraint. -/
inductive ScheduleError
  | dailyCarriesWeekdays
  | weeklyCarriesWeekdays
  | customMissingWeekdays
  | customEmptyWeekdays
  | customWeekdayOutOfRange
  | customDuplicateWeekdays
deriving DecidableEq, Repr

/-- Modelled from the spec: `ScheduleValidator` — `Daily` and `Weekly`
carry no weekday set, `Custom` carries a non-empty duplicate-free subset
of `0..6` (backend `create_habit` validation is not in the tree). -/
def validateSchedule : FrequencyKind → Option (List Nat) → Except ScheduleError Frequency
  | .daily, none => .ok .daily
  | .daily, some _ => .error .dailyCarriesWeekdays
  | .weekly, none => .ok .weekly
  | .weekly, some _ => .error .weeklyCarriesWeekdays
  | .custom, none => .error .customMissingWeekdays
  | .custom, some ws =>
      if ws = [] then .error .customEmptyWeekdays
      else if ¬ (∀ x ∈ ws, x < 7) then .error .customWeekdayOutOfRange
      else if ¬ ws.Nodup then .error .customDuplicateWeekdays
      else .ok (.custom ws)

/-- Modelled from the spec: habit creation goes through `ScheduleValidator`;
a rejected pair creates no habit and surfaces the validation error. -/
def createHabitChecked (id ownerId : Nat) (kind : FrequencyKind)
    (weekdays : Option (List Nat)) (reminderTime : Nat) : Except ScheduleError Habit :=
  (validateSchedule kind weekdays).map (fun f => freshHabit id ownerId f reminderTime)

/-- Modelled from the spec: whether a day index matches a frequency for
reminder projection — Daily every day, Weekly any day (the once-per-week
restriction is applied by keeping only the next occurrence), Custom on its
weekday set. -/
def occursOnDay (f : Frequency) (d : Nat) : Bool :=
  match f with
  | .daily => true
  | .weekly => true
  | .custom ws => decide (weekday d ∈ ws)

/-- An instant lies within the lookahead window `[now, now + windowMinutes]`. -/
def inWindow (now windowMinutes t : Nat) : Bool :=
  decide (now ≤ t ∧ t ≤ now + windowMinutes)

/-- Modelled from the spec: the occurrence instants a habit projects from
`now` — each day matching the frequency, at `reminderTime`, not in the
past; a Weekly habit projects only its next occurrence. The day horizon
covers every instant that can fall inside the lookahead window. -/
def projectedInstants (h : Habit) (now windowMinutes : Nat) : List Nat :=
  let firstDay := now / minutesPerDay
  let days := (List.range (windowMinutes / minutesPerDay + 2)).map (fun k => firstDay + k)
  let insts := (days.filter (fun d => occursOnDay h.frequency d)).map
      (fun d => d * minutesPerDay + h.reminderTime)
  let upcoming := insts.filter (fun t => decide (now ≤ t))
  match h.frequency with
  | .weekly => upcoming.take 1
  | _ => upcoming

/-- Modelled from the spec: the projected occurrences that are included —
exactly those inside `[now, now + windowMinutes]`. -/
def occurrenceInstants (h : Habit) (now windowMinutes : Nat) : List Nat :=
  (projectedInstants h now windowMinutes).filter (fun t => inWindow now windowMinutes t)

/-- Ordering of reminder entries: ascending occurrence instant, ties broken
by habit identifier. -/
def reminderLE (a b : Nat × Nat) : Bool :=
  decide (a.2 < b.2 ∨ (a.2 = b.2 ∧ a.1 ≤ b.1))

/-- Modelled from the spec:
`ReminderWindowComputer.UpcomingOccurrences(habits, now, windowHours)` —
active habits only, occurrences inside the window, sorted by instant with
ties broken by habit id (backend `upcoming_reminders` route is not in the
tree; the frontend calls it via `habitsAPI.getUpcomingReminders`). -/
def upcomingOccurrences (habits : List Habit) (now windowHours : Nat) : List (Nat × Nat) :=
  let window := windowHours * 60
  let pairs := (habits.filter (fun h => h.isActive)).flatMap
      (fun h => (occurrenceInstants h now window).map (fun t => (h.id, t)))
  pairs.mergeSort reminderLE

/-- Run a sequence of completion attempts, keeping the habit unchanged on
an error, as the route surfaces the error without mutating state. -/
def runCompletions (thresholds : List Nat) (tzOffset : Nat) (habit : Habit)
    (nows : List Nat) : Habit :=
  nows.foldl
    (fun h now =>
      match recordCompletion thresholds tzOffset h now with
      | .ok (h', _) => h'
      | .error _ => h)
    habit

end HabitEngine

namespace HabitsScreen

/-- The fixed schedule object sent by `createHabit` in
`HabitsScreen.js`: `{ days: [1, 3, 5], time: '07:00' }`. -/
structure SchedulePayload where
  days : List Nat
  time : String
deriving DecidableEq, Repr

/-- The request body `habitsAPI.createHabit` posts from `HabitsScreen.js`:
name, frequency, and the schedule object. -/
structure CreateHabitPayload where
  name : String
  frequency : String
  schedule : SchedulePayload
deriving DecidableEq, Repr

/-- The three frequency choices offered by the creation modal in
`HabitsScreen.js`. -/
def frequencyOptions : List String := ["daily", "weekly", "custom"]

/-- A string is blank when every character is whitespace — exactly when
JavaScript's `name.trim()` is the empty (falsy) string. -/
def isBlank (s : String) : Bool :=
  s.data.all Char.isWhitespace

/-- Embeds `createHabit` from `HabitsScreen.js`: a blank (trimmed) name
aborts without a request; otherwise the screen posts the name, the selected
frequency, and the hard-coded schedule `days: [1, 3, 5], time: '07:00'`. -/
def createHabitRequest (newHabitName freq : String) : Option CreateHabitPayload :=
  if isBlank newHabitName then none
  else
    some { name := newHabitName, frequency := freq,
           schedule := { days := [1, 3, 5], time := "07:00" } }

end HabitsScreen

namespace HabitEngine

/-- The streak calculator either extends the streak by one or resets it. -/
theorem advance_eq_succ_or_one (h : Habit) (today : Nat) :
    advance h today = h.currentStreak + 1 ∨ advance h today = 1 := by
  obtain ⟨i, ow, f, cur, lo, tot, last, act, rt⟩ := h
  rcases f with _ | _ | ws <;> rcases last with _ | last <;>
    simp only [advance] <;> (try split) <;> simp

/-- `RecordCompletion` only looks at the owner-local calendar date of the
supplied instant. -/
theorem recordCompletion_congr (thr : List Nat) (tz : Nat) (h : Habit) (now now2 : Nat)
    (hsame : localDate now2 tz = localDate now tz) :
    recordCompletion thr tz h now2 = recordCompletion thr tz h now := by
  unfold recordCompletion
  rw [hsame]

/-- Inversion: a `completed` outcome means the same-day guard did not fire
and the resulting habit is the completion transform of the old one. -/
theorem recordCompletion_completed_inv (thr : List Nat) (tz : Nat) (h h' : Habit)
    (now : Nat) (b : Bool)
    (hrec : recordCompletion thr tz h now = .ok (h', .completed b)) :
    h.lastCompletedDate ≠ some (localDate now tz) ∧
      (h', CompletionStatus.completed b) = applyCompletion thr h (localDate now tz) := by
  unfold recordCompletion at hrec
  by_cases hif : h.lastCompletedDate = some (localDate now tz)
  · rw [if_pos hif] at hrec
    simp at hrec
  · rw [if_neg hif] at hrec
    refine ⟨hif, ?_⟩
    rcases hf : h.frequency with _ | _ | ws <;> rw [hf] at hrec
    · simpa using hrec.symm
    · simpa using hrec.symm
    · by_cases hc : weekday (localDate now tz) ∈ ws
      · simp only [hc, if_true] at hrec
        simpa using hrec.symm
      · simp only [hc, if_false] at hrec
        simp at hrec

/-- `prevScheduledAux ws t` returns exactly the greatest day `d < t` whose
weekday lies in `ws`. -/
theorem prevScheduledAux_eq_some_iff (ws : List Nat) (t d : Nat) :
    prevScheduledAux ws t = some d ↔
      d < t ∧ weekday d ∈ ws ∧ ∀ e, d < e → e < t → weekday e ∉ ws := by
  induction t with
  | zero =>
      simp [prevScheduledAux]
  | succ t ih =>
      rw [prevScheduledAux]
      by_cases hc : weekday t ∈ ws
      · rw [if_pos hc]
        constructor
        · intro h
          injection h with h
          subst h
          exact ⟨Nat.lt_succ_self _, hc, fun e he1 he2 => by omega⟩
        · rintro ⟨hd, hmem, hall⟩
          rcases Nat.lt_succ_iff_lt_or_eq.mp hd with hlt | heq
          · exact absurd hc (hall t hlt (Nat.lt_succ_self _))
          · rw [heq]
      · rw [if_neg hc]
        rw [ih]
        constructor
        · rintro ⟨hd, hmem, hall⟩
          refine ⟨by omega, hmem, fun e he1 he2 => ?_⟩
          rcases Nat.lt_succ_iff_lt_or_eq.mp he2 with hlt | heq
          · exact hall e he1 hlt
          · rw [heq]; exact hc
        · rintro ⟨hd, hmem, hall⟩
          have hdt : d ≠ t := fun h => hc (h ▸ hmem)
          exact ⟨by omega, hmem, fun e he1 he2 => hall e he1 (by omega)⟩

/-- C3: for a Daily habit, `StreakCalculator.Advance` returns
`currentStreak + 1` exactly when the calendar-day gap to the last
completion is 1, and resets to 1 on a larger gap or with no prior
completion; completing on days 1 and 2, skipping day 3, then completing on
day 4 leaves `currentStreak = 1` with `longestStreak` still 2. -/
theorem daily_advance_spec (h : Habit) (today : Nat) (hf : h.frequency = .daily) :
    (h.lastCompletedDate = none → advance h today = 1) ∧
    (∀ last, h.lastCompletedDate = some last →
       advance h today = if today - last = 1 then h.currentStreak + 1 else 1) ∧
    (runCompletions [] 0 (freshHabit 1 1 .daily 420) [1440]).currentStreak = 1 ∧
    (runCompletions [] 0 (freshHabit 1 1 .daily 420) [1440]).longestStreak = 1 ∧
    (runCompletions [] 0 (freshHabit 1 1 .daily 420) [1440, 2880]).currentStreak = 2 ∧
    (runCompletions [] 0 (freshHabit 1 1 .daily 420) [1440, 2880, 5760]).currentStreak = 1 ∧
    (runCompletions [] 0 (freshHabit 1 1 .daily 420) [1440, 2880, 5760]).longestStreak = 2 := by
  refine ⟨?_, ?_, by decide, by decide, by decide, by decide, by decide⟩
  · intro hnone
    simp [advance, hf, hnone]
  · intro last hlast
    simp [advance, hf, hlast]

/-- C3 witness: a gap of exactly one day extends a streak of 5 to 6. -/
theorem daily_advance_spec_witness :
    advance { freshHabit 1 1 .daily 420 with
                lastCompletedDate := some 3, currentStreak := 5 } 4 = 6 := by
  have h := (daily_advance_spec
    { freshHabit 1 1 .daily 420 with lastCompletedDate := some 3, currentStreak := 5 }
    4 rfl).2.1 3 rfl
  simpa using h

/-- C4: `CrossesMilestone` holds exactly when some threshold lies in
`(oldStreak, newStreak]`; a 6→9 jump over thresholds {3,7,14} crosses 7, a
3→4 transition crosses nothing, a 2→3 transition crosses 3, and a reset to
1 reports a milestone only when 1 is itself a configured threshold. -/
theorem crossesMilestone_spec :
    (∀ (o n : Nat) (ts : List Nat),
        crossesMilestone o n ts = true ↔ ∃ m ∈ ts, o < m ∧ m ≤ n) ∧
    crossesMilestone 6 9 [3, 7, 14] = true ∧
    crossesMilestone 3 4 [3, 7, 14] = false ∧
    crossesMilestone 2 3 [3, 7, 14] = true ∧
    (∀ (o : Nat) (ts : List Nat), 1 ∉ ts → crossesMilestone o 1 ts = false) ∧
    crossesMilestone 0 1 [1, 3, 7] = true := by
  have hiff : ∀ (o n : Nat) (ts : List Nat),
      crossesMilestone o n ts = true ↔ ∃ m ∈ ts, o < m ∧ m ≤ n := by
    intro o n ts
    simp [crossesMilestone, List.any_eq_true]
  refine ⟨hiff, by decide, by decide, by decide, ?_, by decide⟩
  intro o ts h1
  by_contra hne
  rcases (hiff o 1 ts).mp (by simpa using hne) with ⟨m, hm, hlt, hle⟩
  have hm1 : m = 1 := by omega
  exact h1 (hm1 ▸ hm)

/-- C4 witness: a reset from 5 to 1 crosses no milestone in {3,7,14}. -/
theorem crossesMilestone_spec_witness : crossesMilestone 5 1 [3, 7, 14] = false :=
  crossesMilestone_spec.2.2.2.2.1 5 [3, 7, 14] (by decide)

/-- C7: for a Weekly habit, `StreakCalculator.Advance` increments exactly
when today's ISO week is the immediate successor of the last completion's
ISO week, and resets to 1 otherwise or with no prior completion;
completions in weeks 10 and 11 give `currentStreak = 2`, and another in
week 13 gives `currentStreak = 1`. -/
theorem weekly_advance_spec (h : Habit) (today : Nat) (hf : h.frequency = .weekly) :
    (h.lastCompletedDate = none → advance h today = 1) ∧
    (∀ last, h.lastCompletedDate = some last →
       advance h today = if weekOf today = weekOf last + 1 then h.currentStreak + 1 else 1) ∧
    (runCompletions [] 0 (freshHabit 1 1 .weekly 420)
        [70 * 1440, 77 * 1440]).currentStreak = 2 ∧
    (runCompletions [] 0 (freshHabit 1 1 .weekly 420)
        [70 * 1440, 77 * 1440, 91 * 1440]).currentStreak = 1 := by
  refine ⟨?_, ?_, by decide, by decide⟩
  · intro hnone
    simp [advance, hf, hnone]
  · intro last hlast
    simp only [advance, hf, hlast]
    by_cases hw : weekOf today = weekOf last + 1
    · rw [if_pos hw, if_pos (show weekOf today - weekOf last = 1 by omega)]
    · rw [if_neg hw, if_neg (show ¬ weekOf today - weekOf last = 1 by omega)]

/-- The habit written by a successful completion is stamped with today. -/
theorem applyCompletion_fst_lastCompletedDate (thr : List Nat) (h : Habit) (t : Nat) :
    ((applyCompletion thr h t).1).lastCompletedDate = some t := rfl

/-- A successful completion increments the completion total by one. -/
theorem applyCompletion_fst_totalCompletions (thr : List Nat) (h : Habit) (t : Nat) :
    ((applyCompletion thr h t).1).totalCompletions = h.totalCompletions + 1 := rfl

/-- C1: when the habit's last completed date already equals today
(owner-local date of `now`), `RecordCompletion` is a pure no-op: it returns
the store unchanged (no persistence write) with status
`AlreadyCompletedToday`; consequently a second call on the same calendar
date leaves the state exactly as after the first call alone. -/
theorem recordCompletion_sameDay_idempotent (thr : List Nat) (tz : Nat) (s : Store)
    (now now2 : Nat) (hsame : localDate now2 tz = localDate now tz) :
    (s.habit.lastCompletedDate = some (localDate now tz) →
        recordCompletionStore thr tz s now = (s, .ok .alreadyCompletedToday)) ∧
    (recordCompletionStore thr tz (recordCompletionStore thr tz s now).1 now2).1
      = (recordCompletionStore thr tz s now).1 := by
  constructor
  · intro hlast
    unfold recordCompletionStore recordCompletion
    rw [if_pos hlast]
  · rcases hrec : recordCompletion thr tz s.habit now with e | ⟨h', st⟩
    · have h1 : recordCompletionStore thr tz s now = (s, .error e) := by
        unfold recordCompletionStore
        rw [hrec]
      have h2 : recordCompletion thr tz s.habit now2 = .error e := by
        rw [recordCompletion_congr thr tz s.habit now now2 hsame, hrec]
      rw [h1]
      unfold recordCompletionStore
      rw [h2]
    · rcases st with b | _
      · have hinv := recordCompletion_completed_inv thr tz s.habit h' now b hrec
        have hh : h' = (applyCompletion thr s.habit (localDate now tz)).1 := by
          rw [← hinv.2]
        have hlast : h'.lastCompletedDate = some (localDate now tz) := by
          rw [hh, applyCompletion_fst_lastCompletedDate]
        have h1 : recordCompletionStore thr tz s now
            = ({ habit := h', version := s.version + 1 }, .ok (.completed b)) := by
          unfold recordCompletionStore
          rw [hrec]
        rw [h1]
        unfold recordCompletionStore recordCompletion
        simp only [hsame, hlast, if_pos]
      · have h1 : recordCompletionStore thr tz s now = (s, .ok .alreadyCompletedToday) := by
          unfold recordCompletionStore
          rw [hrec]
        have h2 : recordCompletion thr tz s.habit now2 = .ok (h', .alreadyCompletedToday) := by
          rw [recordCompletion_congr thr tz s.habit now now2 hsame, hrec]
        rw [h1]
        unfold recordCompletionStore
        rw [h2]

/-- C1 witness: a same-day second completion at 10:00 after one at 00:00
of day 10 returns the unchanged store with `AlreadyCompletedToday`. -/
theorem recordCompletion_sameDay_idempotent_witness :
    recordCompletionStore [3] 0
        ⟨{ freshHabit 1 1 .daily 420 with lastCompletedDate := some 10 }, 3⟩ (10 * 1440)
      = (⟨{ freshHabit 1 1 .daily 420 with lastCompletedDate := some 10 }, 3⟩,
         .ok .alreadyCompletedToday) :=
  (recordCompletion_sameDay_idempotent [3] 0
    ⟨{ freshHabit 1 1 .daily 420 with lastCompletedDate := some 10 }, 3⟩
    (10 * 1440) (10 * 1440 + 600) (by decide)).1 (by decide)

/-- C2: any `RecordCompletion` outcome preserves the invariants
`currentStreak ≤ longestStreak` and `currentStreak ≤ totalCompletions`,
and never decreases `totalCompletions`. -/
theorem recordCompletion_invariants (thr : List Nat) (tz : Nat) (s : Store) (now : Nat)
    (hinv1 : s.habit.currentStreak ≤ s.habit.longestStreak)
    (hinv2 : s.habit.currentStreak ≤ s.habit.totalCompletions) :
    ((recordCompletionStore thr tz s now).1.habit.currentStreak
        ≤ (recordCompletionStore thr tz s now).1.habit.longestStreak) ∧
    ((recordCompletionStore thr tz s now).1.habit.currentStreak
        ≤ (recordCompletionStore thr tz s now).1.habit.totalCompletions) ∧
    (s.habit.totalCompletions
        ≤ (recordCompletionStore thr tz s now).1.habit.totalCompletions) := by
  rcases hrec : recordCompletion thr tz s.habit now with e | ⟨h', st⟩
  · have h1 : recordCompletionStore thr tz s now = (s, .error e) := by
      unfold recordCompletionStore
      rw [hrec]
    rw [h1]
    exact ⟨hinv1, hinv2, le_refl _⟩
  · rcases st with b | _
    · have hinv := recordCompletion_completed_inv thr tz s.habit h' now b hrec
      have hh : h' = (applyCompletion thr s.habit (localDate now tz)).1 := by
        rw [← hinv.2]
      have h1 : recordCompletionStore thr tz s now
          = ({ habit := h', version := s.version + 1 }, .ok (.completed b)) := by
        unfold recordCompletionStore
        rw [hrec]
      rw [h1, hh]
      rcases advance_eq_succ_or_one s.habit (localDate now tz) with ha | ha <;>
        simp [applyCompletion, ha] <;> omega
    · have h1 : recordCompletionStore thr tz s now = (s, .ok .alreadyCompletedToday) := by
        unfold recordCompletionStore
        rw [hrec]
      rw [h1]
      exact ⟨hinv1, hinv2, le_refl _⟩

/-- C2 witness: the invariants hold after completing a daily habit with
streak 2, best 3, and 5 completions, one day after its last completion. -/
theorem recordCompletion_invariants_witness :
    (recordCompletionStore [3] 0
        ⟨{ freshHabit 1 1 .daily 420 with
            currentStreak := 2, longestStreak := 3,
            totalCompletions := 5, lastCompletedDate := some 9 }, 0⟩
        (10 * 1440)).1.habit.currentStreak
      ≤ (recordCompletionStore [3] 0
        ⟨{ freshHabit 1 1 .daily 420 with
            currentStreak := 2, longestStreak := 3,
            totalCompletions := 5, lastCompletedDate := some 9 }, 0⟩
        (10 * 1440)).1.habit.longestStreak :=
  (recordCompletion_invariants [3] 0
    ⟨{ freshHabit 1 1 .daily 420 with
        currentStreak := 2, longestStreak := 3,
        totalCompletions := 5, lastCompletedDate := some 9 }, 0⟩
    (10 * 1440) (by decide) (by decide)).1

/-- C5: `ScheduleValidator` accepts exactly the pairs the contract allows —
`Daily`/`Weekly` with no weekday set, or `Custom` with a non-empty
duplicate-free subset of 0..6 — and a rejected pair creates no habit,
surfacing the `InvalidScheduleError` variant naming the violated
constraint. -/
theorem validateSchedule_spec (kind : FrequencyKind) (ws : Option (List Nat))
    (i ow rt : Nat) :
    ((∃ f, validateSchedule kind ws = .ok f) ↔
        (kind = .daily ∧ ws = none) ∨ (kind = .weekly ∧ ws = none) ∨
        (∃ l, kind = .custom ∧ ws = some l ∧ l ≠ [] ∧ l.Nodup ∧ ∀ x ∈ l, x < 7)) ∧
    (∀ e, validateSchedule kind ws = .error e →
        createHabitChecked i ow kind ws rt = .error e) := by
  constructor
  · rcases kind with _ | _ | _ <;> rcases ws with _ | l
    · simp [validateSchedule]
    · simp [validateSchedule]
    · simp [validateSchedule]
    · simp [validateSchedule]
    · simp [validateSchedule]
    · simp only [validateSchedule]
      by_cases h1 : l = []
      · rw [if_pos h1]
        simp [h1]
      · rw [if_neg h1]
        by_cases h2 : ∀ x ∈ l, x < 7
        · rw [if_neg (not_not_intro h2)]
          by_cases h3 : l.Nodup
          · rw [if_neg (not_not_intro h3)]
            simp [h1, h3]
            exact h2
          · rw [if_pos h3]
            simp [h3]
        · rw [if_pos h2]
          simp [h2]
  · intro e he
    unfold createHabitChecked
    rw [he]
    rfl

/-- C5 witness: an empty Custom weekday set is rejected and creates no
habit. -/
theorem validateSchedule_spec_witness :
    createHabitChecked 1 1 .custom (some []) 420 = .error .customEmptyWeekdays :=
  (validateSchedule_spec .custom (some []) 1 1 420).2 .customEmptyWeekdays rfl

/-- C6: a Custom-frequency completion on a non-scheduled weekday is
rejected with `ScheduleMismatchError` before any streak computation; on a
scheduled day, `Advance` increments exactly when the last completed date is
the most recent strictly-earlier date whose weekday is scheduled (the
characterization of `previousScheduledDate` being proved as well), and
resets to 1 otherwise. -/
theorem custom_completion_spec (thr : List Nat) (tz : Nat) (h : Habit) (now : Nat)
    (ws : List Nat) (hf : h.frequency = .custom ws) :
    (weekday (localDate now tz) ∉ ws → h.lastCompletedDate ≠ some (localDate now tz) →
        recordCompletion thr tz h now = .error .scheduleMismatch) ∧
    (h.lastCompletedDate = none → advance h (localDate now tz) = 1) ∧
    (∀ last, h.lastCompletedDate = some last →
        advance h (localDate now tz) =
          if previousScheduledDate (localDate now tz) ws = some last
          then h.currentStreak + 1 else 1) ∧
    (∀ today d, previousScheduledDate today ws = some d ↔
        d < today ∧ weekday d ∈ ws ∧ ∀ e, d < e → e < today → weekday e ∉ ws) := by
  refine ⟨?_, ?_, ?_, ?_⟩
  · intro hsched hlast
    simp [recordCompletion, hlast, hf, hsched]
  · intro hnone
    simp [advance, hf, hnone]
  · intro last hlast
    simp [advance, hf, hlast]
  · intro today d
    exact prevScheduledAux_eq_some_iff ws today d

/-- C6 witness: completing a Mon/Wed/Fri habit on a Tuesday-indexed day is
rejected with a schedule mismatch. -/
theorem custom_completion_spec_witness :
    recordCompletion [] 0 (freshHabit 1 1 (.custom [1, 3, 5]) 420) (2 * 1440)
      = .error .scheduleMismatch :=
  (custom_completion_spec [] 0 (freshHabit 1 1 (.custom [1, 3, 5]) 420) (2 * 1440)
    [1, 3, 5] rfl).1 (by decide) (by decide)

/-- C7 witness: a completion in the week right after the last one extends
the streak from 1 to 2 (days 70 and 77 are in consecutive weeks). -/
theorem weekly_advance_spec_witness :
    advance { freshHabit 1 1 .weekly 420 with
                lastCompletedDate := some 70, currentStreak := 1 } 77 = 2 := by
  have h := (weekly_advance_spec
    { freshHabit 1 1 .weekly 420 with lastCompletedDate := some 70, currentStreak := 1 }
    77 rfl).2.1 70 rfl
  rw [if_pos (by decide)] at h
  exact h

/-- C9: in the modelled optimistic-concurrency protocol, two
`RecordCompletion` callers racing on the same habit and the same calendar
day perform exactly one increment of `totalCompletions`: the winning
compare-and-swap write lands, the losing caller's write conflicts, and its
re-read sees `lastCompletedDate = today` and exits through the
`AlreadyCompletedToday` no-op path; the final store does not depend on the
arrival order. -/
theorem race_single_increment (thr : List Nat) (tz : Nat) (s0 : Store) (now1 now2 : Nat)
    (hsame : localDate now2 tz = localDate now1 tz)
    (h' : Habit) (b : Bool)
    (hfirst : recordCompletion thr tz s0.habit now1 = .ok (h', .completed b)) :
    (casRecordCompletion thr tz now2 s0
        (casRecordCompletion thr tz now1 s0 s0).1).1.habit.totalCompletions
      = s0.habit.totalCompletions + 1 ∧
    (casRecordCompletion thr tz now2 s0
        (casRecordCompletion thr tz now1 s0 s0).1).2 = .ok .alreadyCompletedToday ∧
    (casRecordCompletion thr tz now1 s0
        (casRecordCompletion thr tz now2 s0 s0).1).1
      = (casRecordCompletion thr tz now2 s0
        (casRecordCompletion thr tz now1 s0 s0).1).1 := by
  have hinv := recordCompletion_completed_inv thr tz s0.habit h' now1 b hfirst
  have hh : h' = (applyCompletion thr s0.habit (localDate now1 tz)).1 := by
    rw [← hinv.2]
  have hlast1 : h'.lastCompletedDate = some (localDate now1 tz) := by
    rw [hh, applyCompletion_fst_lastCompletedDate]
  have hrec2 : recordCompletion thr tz s0.habit now2 = .ok (h', .completed b) := by
    rw [recordCompletion_congr thr tz s0.habit now1 now2 hsame, hfirst]
  have hnoop1 : recordCompletion thr tz h' now1 = .ok (h', .alreadyCompletedToday) := by
    unfold recordCompletion
    rw [if_pos hlast1]
  have hnoop2 : recordCompletion thr tz h' now2 = .ok (h', .alreadyCompletedToday) := by
    rw [recordCompletion_congr thr tz h' now1 now2 hsame, hnoop1]
  have step1 : casRecordCompletion thr tz now1 s0 s0
      = (⟨h', s0.version + 1⟩, .ok (.completed b)) := by
    unfold casRecordCompletion
    rw [hfirst]
    simp [save]
  have step1x : casRecordCompletion thr tz now2 s0 s0
      = (⟨h', s0.version + 1⟩, .ok (.completed b)) := by
    unfold casRecordCompletion
    rw [hrec2]
    simp [save]
  have step2 : casRecordCompletion thr tz now2 s0 (⟨h', s0.version + 1⟩ : Store)
      = (⟨h', s0.version + 1⟩, .ok .alreadyCompletedToday) := by
    unfold casRecordCompletion
    rw [hrec2]
    simp [save, hnoop2]
  have step2x : casRecordCompletion thr tz now1 s0 (⟨h', s0.version + 1⟩ : Store)
      = (⟨h', s0.version + 1⟩, .ok .alreadyCompletedToday) := by
    unfold casRecordCompletion
    rw [hfirst]
    simp [save, hnoop1]
  rw [step1, step1x]
  simp only [step2, step2x]
  refine ⟨?_, by simp, by simp⟩
  rw [hh, applyCompletion_fst_totalCompletions]

/-- Concrete racing store: a daily habit last completed on day 9. -/
def raceStore : Store :=
  ⟨{ freshHabit 1 1 .daily 420 with
      currentStreak := 2, longestStreak := 3,
      totalCompletions := 5, lastCompletedDate := some 9 }, 7⟩

/-- The habit the winning racer writes on day 10. -/
def raceWinner : Habit :=
  { id := 1, ownerId := 1, frequency := .daily, currentStreak := 3, longestStreak := 3,
    totalCompletions := 6, lastCompletedDate := some 10, isActive := true,
    reminderTime := 420 }

/-- C9 witness: a concrete same-day race ends with exactly one increment
of the completion total. -/
theorem race_single_increment_witness :
    (casRecordCompletion [3] 0 (10 * 1440 + 5) raceStore
        (casRecordCompletion [3] 0 (10 * 1440) raceStore raceStore).1).1.habit.totalCompletions
      = raceStore.habit.totalCompletions + 1 :=
  (race_single_increment [3] 0 raceStore (10 * 1440) (10 * 1440 + 5) (by decide)
    raceWinner true rfl).1


/-- Reminder ordering (instant, then habit id) is transitive. -/
theorem reminderLE_trans (a b c : Nat × Nat) (hab : reminderLE a b) (hbc : reminderLE b c) :
    reminderLE a c := by
  simp [reminderLE] at hab hbc ⊢
  omega

/-- Reminder ordering (instant, then habit id) is total. -/
theorem reminderLE_total (a b : Nat × Nat) : reminderLE a b || reminderLE b a := by
  simp [reminderLE]
  omega

/-- When the unsorted reminder pairs are already in order, the computed
list is exactly those pairs. -/
theorem upcoming_eq (habits : List Habit) (now wh : Nat)
    (l : List (Nat × Nat))
    (hp : ((habits.filter (fun h => h.isActive)).flatMap
        (fun h => (occurrenceInstants h now (wh * 60)).map (fun t => (h.id, t)))) = l)
    (hs : List.Pairwise (fun a b => reminderLE a b = true) l) :
    upcomingOccurrences habits now wh = l := by
  simp only [upcomingOccurrences]
  rw [hp]
  exact List.mergeSort_of_sorted hs

/-- C8 (amended): `UpcomingOccurrences` contains `(i, t)` exactly when some
active habit with id `i` projects the occurrence `t` and `t` lies within
`[now, now + windowHours]`; the output is sorted by instant with ties
broken by habit id. For a daily habit at 07:00, `now = 06:00` with a
4-hour window yields exactly the 07:00 occurrence of the same day, while
`now = 08:00` with a 4-hour window yields nothing — the next projection,
07:00 the following day, lies outside the window and is returned only once
the window reaches it (e.g. 24 hours). -/
theorem upcomingOccurrences_spec (habits : List Habit) (now windowHours : Nat) :
    (∀ i t, (i, t) ∈ upcomingOccurrences habits now windowHours ↔
        ∃ h ∈ habits, h.isActive = true ∧ h.id = i ∧
          t ∈ projectedInstants h now (windowHours * 60) ∧
          now ≤ t ∧ t ≤ now + windowHours * 60) ∧
    List.Pairwise (fun a b : Nat × Nat => a.2 < b.2 ∨ (a.2 = b.2 ∧ a.1 ≤ b.1))
      (upcomingOccurrences habits now windowHours) ∧
    upcomingOccurrences [freshHabit 1 1 .daily (7 * 60)] (6 * 60) 4 = [(1, 7 * 60)] ∧
    upcomingOccurrences [freshHabit 1 1 .daily (7 * 60)] (8 * 60) 4 = [] ∧
    upcomingOccurrences [freshHabit 1 1 .daily (7 * 60)] (8 * 60) 24
      = [(1, 1440 + 7 * 60)] := by
  refine ⟨?_, ?_, upcoming_eq _ _ _ _ (by decide) (by simp),
    upcoming_eq _ _ _ _ (by decide) (by simp),
    upcoming_eq _ _ _ _ (by decide) (by simp)⟩
  · intro i t
    unfold upcomingOccurrences occurrenceInstants
    rw [List.mem_mergeSort]
    simp [List.mem_flatMap, List.mem_filter, List.mem_map, inWindow]
    tauto
  · unfold upcomingOccurrences
    exact List.Pairwise.imp (fun hab => by simpa [reminderLE] using hab)
      (List.sorted_mergeSort reminderLE_trans reminderLE_total _)

/-- C8 counterexample: with `now = 08:00` and a 4-hour window, the daily
07:00 habit's next-day occurrence is not returned (the result is empty),
contrary to the claim that this call returns the 07:00 occurrence of the
next day. -/
theorem upcomingOccurrences_overshoot_cex :
    (1, 1440 + 7 * 60) ∉ upcomingOccurrences [freshHabit 1 1 .daily (7 * 60)] (8 * 60) 4 ∧
    upcomingOccurrences [freshHabit 1 1 .daily (7 * 60)] (8 * 60) 4 = [] := by
  have h := upcoming_eq [freshHabit 1 1 .daily (7 * 60)] (8 * 60) 4 [] (by decide) (by simp)
  rw [h]
  simp


end HabitEngine

namespace HabitsScreen

/-- C10: every frequency selectable in the creation modal (daily, weekly,
custom) produces the identical fixed schedule payload `days = [1, 3, 5]`,
`time = '07:00'`, so every habit created through this screen carries a
weekday set. -/
theorem createHabit_fixed_schedule (freq : String) (hfreq : freq ∈ frequencyOptions)
    (name : String) (p : CreateHabitPayload)
    (hp : createHabitRequest name freq = some p) :
    p.schedule = { days := [1, 3, 5], time := "07:00" } ∧
    p.schedule.days ≠ [] ∧ p.frequency = freq ∧ p.name = name := by
  unfold createHabitRequest at hp
  by_cases hn : isBlank name = true
  · rw [if_pos hn] at hp
    simp at hp
  · rw [if_neg hn] at hp
    injection hp with hp
    subst hp
    exact ⟨rfl, by simp, rfl, rfl⟩

/-- C10 witness: the payload created for a daily habit carries the
hard-coded weekday set. -/
theorem createHabit_fixed_schedule_witness :
    ({ name := "Morning Workout", frequency := "daily",
       schedule := { days := [1, 3, 5], time := "07:00" } } :
      CreateHabitPayload).schedule.days ≠ [] :=
  (createHabit_fixed_schedule "daily" (by decide) "Morning Workout" _ (by decide)).2.1

end HabitsScreen
